import Mathlib

/-!
The package remon: key mapping, options and the dirty-entry drain loop

A shallow embedding of `option.go` and `sync.go`, followed by the properties of
the key mapping, the construction options, `runScript` and the drain loop
`Serve`.

Go strings are embedded as Lean strings.  The only delimiter the code searches
for is the one-byte `":"`, and in UTF-8 the byte `0x3A` never occurs inside a
multi-byte sequence, so byte-wise and character-wise search agree.
-/

namespace remon

/-! ## Splitting with `strings.SplitN` (Go standard library), one-byte separator -/

/-- Go `strings.Index(s, sep)` for a one-byte `sep`: the position of the first
occurrence, `none` for the result `-1`. -/
def Index : List Char → Char → Option Nat
  | [], _ => none
  | x :: xs, sep => if x = sep then some 0 else (Index xs sep).map (· + 1)

/-- The loop of `strings.genSplit`, with `k` the remaining `n - 1 - i`:
`for i < n { m := Index(s, sep); if m < 0 { break }; a[i] = s[:m];
s = s[m+len(sep):]; i++ }; a[i] = s; return a[:i+1]`. -/
def genSplitLoop (sep : Char) : Nat → List Char → List (List Char)
  | 0, s => [s]
  | k + 1, s =>
    match Index s sep with
    | none => [s]
    | some m => s.take m :: genSplitLoop sep k (s.drop (m + 1))

/-- Go `strings.SplitN(s, sep, n)` for a one-byte `sep` and `n ≥ 0`:
`n == 0` gives nil, `n` is capped at `len(s) + 1`, then the loop runs. -/
def SplitN (s : List Char) (sep : Char) (n : Nat) : List (List Char) :=
  if n = 0 then []
  else genSplitLoop sep ((if n > s.length + 1 then s.length + 1 else n) - 1) s

/-! ## option.go -/

/-- Method `defaultKeyMappingStrategy.MapKey`: split on `":"` into at most three
parts and switch on the number of parts. -/
def defaultKeyMappingStrategy.MapKey (key : String) : String × String × String :=
  match SplitN key.data ':' 3 with
  | [a0, a1, a2] => (String.mk a0, String.mk a1, String.mk a2)
  | [a0, a1] => ("default", String.mk a0, String.mk a1)
  | _ => ("default", "default", key)

/-- The values of the interface `KeyMappingStrategy`: the default strategy,
a `funcKeyMappingStrategy{f}`, or any other implementation, given by its
`MapKey` method.  (A nil interface value is not modelled.) -/
inductive KeyMappingStrategy where
  | defaultStrategy
  | funcStrategy (f : String → String × String × String)
  | other (mapKey : String → String × String × String)

/-- Method `MapKey` of a strategy value. -/
def KeyMappingStrategy.MapKey : KeyMappingStrategy → String → String × String × String
  | .defaultStrategy, key => defaultKeyMappingStrategy.MapKey key
  | .funcStrategy f, key => f key
  | .other mapKey, key => mapKey key

/-- The struct `options`; a `time.Duration` is its number of nanoseconds. -/
structure options where
  volatileTTL : Int
  keyMappingStrategy : KeyMappingStrategy

/-- The constant `time.Hour`, in nanoseconds. -/
def Hour : Int := 3600 * 1000000000

/-- The constructor `newOptions()`. -/
def newOptions : options :=
  { volatileTTL := 24 * Hour, keyMappingStrategy := KeyMappingStrategy.defaultStrategy }

/-- The type `funcOption`, the only implementation of the interface `Option`;
the mutation of `*options` is the returned record. -/
structure funcOption where
  f : options → options

/-- Method `funcOption.apply`. -/
def funcOption.apply (f : funcOption) (o : options) : options := f.f o

/-- The option `WithVolatileTTL(v)`. -/
def WithVolatileTTL (v : Int) : funcOption :=
  ⟨fun o => { o with volatileTTL := v }⟩

/-- The option `WithKeyMappingStrategy(v)`. -/
def WithKeyMappingStrategy (v : KeyMappingStrategy) : funcOption :=
  ⟨fun o => { o with keyMappingStrategy := v }⟩

/-- The option `WithKeyMappingStrategyFunc(v)`. -/
def WithKeyMappingStrategyFunc (v : String → String × String × String) : funcOption :=
  ⟨fun o => { o with keyMappingStrategy := KeyMappingStrategy.funcStrategy v }⟩

/-- The function `applyOptions(o, opts)`: apply every option in order. -/
def applyOptions (o : options) (opts : List funcOption) : options :=
  opts.foldl (fun acc opt => opt.apply acc) o

/-- The calls by which a caller outside the package can build an `Option`. -/
inductive OptionCall where
  | withVolatileTTL (v : Int)
  | withKeyMappingStrategy (v : KeyMappingStrategy)
  | withKeyMappingStrategyFunc (v : String → String × String × String)

/-- The option a call builds. -/
def OptionCall.build : OptionCall → funcOption
  | .withVolatileTTL v => WithVolatileTTL v
  | .withKeyMappingStrategy v => WithKeyMappingStrategy v
  | .withKeyMappingStrategyFunc v => WithKeyMappingStrategyFunc v

/-- The duration a call sets, if it is a `WithVolatileTTL`. -/
def OptionCall.ttl : OptionCall → Option Int
  | .withVolatileTTL v => some v
  | _ => none

/-- The strategy a call sets, if it is a `WithKeyMappingStrategy` or a
`WithKeyMappingStrategyFunc`. -/
def OptionCall.strategy : OptionCall → Option KeyMappingStrategy
  | .withKeyMappingStrategy v => some v
  | .withKeyMappingStrategyFunc f => some (KeyMappingStrategy.funcStrategy f)
  | .withVolatileTTL _ => none

/-- The value of the last `WithVolatileTTL` in a list of calls, if any. -/
def lastVolatileTTL (calls : List OptionCall) : Option Int :=
  (calls.filterMap OptionCall.ttl).getLast?

/-- The strategy set by the last `WithKeyMappingStrategy` or
`WithKeyMappingStrategyFunc` in a list of calls, if any. -/
def lastStrategy (calls : List OptionCall) : Option KeyMappingStrategy :=
  (calls.filterMap OptionCall.strategy).getLast?

/-! ## sync.go -/

/-- Error values: `redis.Nil` (the "no data" reply of the driver),
`context.Canceled`, and any other error, named by its message. -/
inductive Err where
  | Nil
  | Canceled
  | other (msg : String)
  deriving DecidableEq, Repr

/-- The struct `xData` (its declaration is outside the given sources): the
fields `Serve` and `save` read, a 64-bit revision and the raw value. -/
structure xData where
  Rev : Int
  Val : String
  deriving DecidableEq, Repr

/-- The `interface{}` a script run returns through `Cmd.Result()`. -/
inductive Reply where
  | null
  | int (n : Int)
  | str (s : String)
  | list (items : List Reply)

/-- The two scripts `luaPeek` and `luaNext`. -/
inductive Script where
  | luaPeek
  | luaNext
  deriving DecidableEq, Repr

/-- What a call of `runScript`, `peek` or `next` does: it returns its three
results, or it panics. -/
inductive Outcome where
  | ret (key : String) (data : xData) (err : Option Err)
  | panic
  deriving DecidableEq, Repr

/-- Lines 88-94 of `runScript`: the `keys` and `args` handed to `script.Run`. -/
def scriptInput (key : String) (rev : Int) : List String × List Int :=
  if key ≠ "" ∧ rev > 0 then ([key], [rev]) else ([], [])

/-- Lines 96-107 of `runScript`: what it does with the result `(r, err)` of
`script.Run(...).Result()`.  `unmarshal s` is `msgpack.Unmarshal` on the bytes
of `s`: the error it returns and the `data` it leaves behind. -/
def unpack (unmarshal : String → Option Err × xData) : Except Err Reply → Outcome
  | .error err => Outcome.ret "" ⟨0, ""⟩ (some err)
  | .ok (Reply.list [a0, a1]) =>
    match a1 with
    | Reply.str s =>
      match unmarshal s with
      | (some err, data) => Outcome.ret "" data (some err)
      | (none, data) =>
        match a0 with
        | Reply.str k => Outcome.ret k data none
        | _ => Outcome.panic
    | _ => Outcome.panic
  | .ok _ => Outcome.panic

/-- Modelled from the spec: `Script.Run` and the cache driver behind
`RedisClient` are outside the given sources.  Per sections 4.2 and 5 of the
specification the stop signal is observed "just before issuing a blocking
network call" and a round trip in flight is not cancellable: a call started
after the signal fired returns the cancellation error, any other call returns
what the cache engine replies. -/
def Script.Run (cancelled : Bool) (reply : Except Err Reply) : Except Err Reply :=
  if cancelled then Except.error Err.Canceled else reply

/-- The struct `xOptions` (its declaration is outside the given sources): the
fields `Serve` and `save` read. -/
structure xOptions where
  syncRate : Int
  keyMappingStrategy : KeyMappingStrategy

/-- Everything outside the client that a run of `Serve` depends on.  The
interactions of one run are numbered 0, 1, 2, ... in the order `Serve` makes
them, and instants are counted in half steps: instant `2 * i` is just before
interaction `i` starts, instant `2 * i + 1` is while it lasts.
* `stopAt`: the instant at which `Stop()` is called (`some 0`: before `Serve`
  starts; `none`: never);
* `eval i script keys args`: what the cache engine answers if interaction `i`
  runs `script` on `keys` and `args`;
* `unmarshal`: `msgpack.Unmarshal` into an `xData`;
* `updateOne i db coll id data`: the error of the upsert made by interaction `i`;
* `tickFirst i`: whether, in a pacing wait at interaction `i` that also sees the
  stop signal, the tick is ready and is the case chosen. -/
structure World where
  stopAt : Option Nat
  eval : Nat → Script → List String → List Int → Except Err Reply
  unmarshal : String → Option Err × xData
  updateOne : Nat → String → String → String → xData → Option Err
  tickFirst : Nat → Bool

/-- Whether `cli.ctx` is already cancelled when interaction `i` starts. -/
def World.stoppedBefore (w : World) (i : Nat) : Bool :=
  match w.stopAt with
  | some h => decide (h ≤ 2 * i)
  | none => false

/-- Whether `cli.ctx` is cancelled before interaction `i` ends. -/
def World.stoppedDuring (w : World) (i : Nat) : Bool :=
  match w.stopAt with
  | some h => decide (h ≤ 2 * i + 1)
  | none => false

/-- The struct `SyncClient`: its options and the world it runs in. -/
structure SyncClient where
  opts : xOptions
  world : World

/-- Method `SyncClient.runScript`, made as interaction `i`. -/
def SyncClient.runScript (cli : SyncClient) (i : Nat) (script : Script) (key : String)
    (rev : Int) : Outcome :=
  unpack cli.world.unmarshal
    (Script.Run (cli.world.stoppedBefore i)
      (cli.world.eval i script (scriptInput key rev).1 (scriptInput key rev).2))

/-- Method `SyncClient.peek`. -/
def SyncClient.peek (cli : SyncClient) (i : Nat) : Outcome :=
  cli.runScript i Script.luaPeek "" 0

/-- Method `SyncClient.next`. -/
def SyncClient.next (cli : SyncClient) (i : Nat) (key : String) (rev : Int) : Outcome :=
  cli.runScript i Script.luaNext key rev

/-- Method `SyncClient.save`: one upsert at the mapped location, under
`context.Background()`. -/
def SyncClient.save (cli : SyncClient) (i : Nat) (key : String) (data : xData) : Option Err :=
  cli.world.updateOne i (cli.opts.keyMappingStrategy.MapKey key).1
    (cli.opts.keyMappingStrategy.MapKey key).2.1 (cli.opts.keyMappingStrategy.MapKey key).2.2 data

/-- The case a `select` runs: `<-cli.ctx.Done()`, or the tick / the timer. -/
inductive SelectCase where
  | done
  | fired
  deriving DecidableEq, Repr

/-- The `select` of lines 55-59: the stop signal against the next tick. -/
def World.selectTick (w : World) (i : Nat) : SelectCase :=
  if w.stoppedDuring i then (if w.tickFirst i then SelectCase.fired else SelectCase.done)
  else SelectCase.fired

/-- The `select` of lines 66-70: the stop signal against a fresh one-second
timer, which cannot be ready while the signal already is. -/
def World.selectAfter (w : World) (i : Nat) : SelectCase :=
  if w.stoppedDuring i then SelectCase.done else SelectCase.fired

/-- What `Serve` does to the outside, one event per interaction. -/
inductive Event where
  | peek (out : Outcome)
  | save (key : String) (data : xData) (err : Option Err)
  | debugf (key : String)
  | pace (c : SelectCase)
  | next (key : String) (rev : Int) (out : Outcome)
  | errorf (err : Err)
  | halt (c : SelectCase)
  deriving DecidableEq, Repr

/-- Where `Serve` stands: about to `peek` (line 48), `save` (line 50), log the
saved key (line 53), wait for the pacing tick (lines 55-59), call `next` (the
post statement of line 49), log an error (line 63), wait one second (lines
66-70); or it has returned, or a panic (of `time.NewTicker` or of `runScript`)
has ended it. -/
inductive Pc where
  | peek
  | save (key : String) (data : xData)
  | debugf (key : String) (data : xData)
  | pace (key : String) (data : xData)
  | next (key : String) (data : xData)
  | errorf (err : Err)
  | halt
  | returned
  | panicked
  deriving DecidableEq, Repr

/-- Line 62, reached with a non-nil `err`: log it unless it is `redis.Nil`. -/
def onError (err : Err) : Pc :=
  if err = Err.Nil then Pc.halt else Pc.errorf err

/-- The loop condition `err == nil` of line 49 after `peek` or `next`. -/
def onOutcome : Outcome → Pc
  | Outcome.panic => Pc.panicked
  | Outcome.ret key data none => Pc.save key data
  | Outcome.ret _ _ (some err) => onError err

/-- One interaction of `Serve`, the `i`-th: the event and the next position. -/
def SyncClient.step (cli : SyncClient) (i : Nat) : Pc → Option Event × Pc
  | Pc.peek => (some (Event.peek (cli.peek i)), onOutcome (cli.peek i))
  | Pc.save key data =>
    match cli.save i key data with
    | some err => (some (Event.save key data (some err)), onError err)
    | none => (some (Event.save key data none), Pc.debugf key data)
  | Pc.debugf key data =>
    (some (Event.debugf key),
      if cli.opts.syncRate > 0 then Pc.pace key data else Pc.next key data)
  | Pc.pace key data =>
    (some (Event.pace (cli.world.selectTick i)),
      match cli.world.selectTick i with
      | SelectCase.done => Pc.returned
      | SelectCase.fired => Pc.next key data)
  | Pc.next key data =>
    (some (Event.next key data.Rev (cli.next i key data.Rev)),
      onOutcome (cli.next i key data.Rev))
  | Pc.errorf err => (some (Event.errorf err), Pc.halt)
  | Pc.halt =>
    (some (Event.halt (cli.world.selectAfter i)),
      match cli.world.selectAfter i with
      | SelectCase.done => Pc.returned
      | SelectCase.fired => Pc.peek)
  | Pc.returned => (none, Pc.returned)
  | Pc.panicked => (none, Pc.panicked)

/-- The constant `time.Second`, in nanoseconds. -/
def Second : Int := 1000000000

/-- Lines 42-46 of `Serve`: with `syncRate > 0` the ticker
`time.NewTicker(time.Second / time.Duration(syncRate))` is created, and
`time.NewTicker` panics on a period that is not positive, which the integer
quotient is as soon as `syncRate` exceeds `time.Second`; otherwise `Serve` enters
its loop at the `peek` of line 48.  (Both operands are positive where the
quotient is taken, so the rounding of the division plays no role.) -/
def SyncClient.start (cli : SyncClient) : Pc :=
  if cli.opts.syncRate > 0 ∧ Second / cli.opts.syncRate ≤ 0 then Pc.panicked else Pc.peek

/-- Where `Serve` stands after `i` interactions. -/
def SyncClient.pcAt (cli : SyncClient) : Nat → Pc
  | 0 => cli.start
  | i + 1 => (cli.step i (cli.pcAt i)).2

/-- The event of interaction `i`; `none` once `Serve` is over. -/
def SyncClient.eventAt (cli : SyncClient) (i : Nat) : Option Event :=
  (cli.step i (cli.pcAt i)).1

/-- Method `SyncClient.Serve`, run for `n` interactions: the events so far, oldest
first, and where it stands. -/
def SyncClient.Serve (cli : SyncClient) (n : Nat) : List Event × Pc :=
  ((List.range n).filterMap cli.eventAt, cli.pcAt n)

/-- The error a call of `runScript` returned, if it returned one. -/
def Outcome.err : Outcome → Option Err
  | Outcome.ret _ _ err => err
  | Outcome.panic => none

/-- The error with which `peek`, `next` or `save` returned, if the event is
such a call and it returned one. -/
def Event.error : Event → Option Err
  | Event.peek out => out.err
  | Event.next _ _ out => out.err
  | Event.save _ _ err => err
  | _ => none

/-- The error with which a ledger call (`peek` or `next`) returned. -/
def Event.ledgerError : Event → Option Err
  | Event.peek out => out.err
  | Event.next _ _ out => out.err
  | _ => none

/-- Whether the event is a ledger call or a save. -/
def Event.isCall : Event → Bool
  | Event.peek _ => true
  | Event.next _ _ _ => true
  | Event.save _ _ _ => true
  | _ => false

/-! ### Example worlds -/

/-- A world with one dirty entry: `luaPeek` answers key `"db:coll:42"` with the
record `"V1"`, `luaNext` answers "no data", every record decodes to revision 1,
the upsert fails iff `saveFails`, and a pacing wait that sees the stop signal
takes it. -/
def exampleWorld (stopAt : Option Nat) (saveFails : Bool) : World where
  stopAt := stopAt
  eval := fun _ script _ _ =>
    match script with
    | Script.luaPeek => Except.ok (Reply.list [Reply.str "db:coll:42", Reply.str "V1"])
    | Script.luaNext => Except.error Err.Nil
  unmarshal := fun s => (none, ⟨1, s⟩)
  updateOne := fun _ _ _ _ _ => if saveFails then some (Err.other "mongo: unavailable") else none
  tickFirst := fun _ => false

/-- A client with the default key mapping in `exampleWorld`. -/
def exampleClient (syncRate : Int) (stopAt : Option Nat) (saveFails : Bool) : SyncClient :=
  ⟨⟨syncRate, KeyMappingStrategy.defaultStrategy⟩, exampleWorld stopAt saveFails⟩

/-- A world in which every script run gets the result `r`. -/
def replyWorld (r : Except Err Reply) : World where
  stopAt := none
  eval := fun _ _ _ _ => r
  unmarshal := fun s => (none, ⟨1, s⟩)
  updateOne := fun _ _ _ _ _ => none
  tickFirst := fun _ => false

/-- A client with the default key mapping in `replyWorld r`. -/
def replyClient (r : Except Err Reply) : SyncClient :=
  ⟨⟨0, KeyMappingStrategy.defaultStrategy⟩, replyWorld r⟩

/-! ## The Dirty Ledger -/

/-- Modelled from the spec: one key of the cache as the Dirty Ledger sees it
(section 3): its latest entry, its dirty flag, and the expiration set on it
(`none`: the key does not expire). -/
structure Slot where
  entry : xData
  dirty : Bool
  ttl : Option Int

/-- Modelled from the spec: the Dirty Ledger of sections 3 and 4.1, which lives
in the scripts `luaPeek` and `luaNext`, outside the given sources: the ordered
set of the currently dirty keys, oldest first, the slot of every key, and the
configured Volatile TTL. -/
structure Ledger where
  order : List String
  slots : String → Option Slot
  volatileTTL : Int

/-- Modelled from the spec: `PeekFirst() -> (key, entry) | NotFound` of section
4.1, "the oldest still-dirty key and its current entry without modifying ledger
state"; `none` is `NotFound`. -/
def Ledger.PeekFirst (L : Ledger) : Option (String × xData) :=
  match L.order with
  | [] => none
  | key :: _ =>
    match L.slots key with
    | some s => some (key, s.entry)
    | none => none

/-- Modelled from the spec: the state change of `Advance(key, expectedRevision)`
of section 4.1: "if the entry currently stored for `key` has revision equal to
`expectedRevision`, clear its dirty flag, remove it from the ordered set, and
apply the Volatile TTL". -/
def Ledger.clear (L : Ledger) (key : String) (expectedRevision : Int) : Ledger :=
  match L.slots key with
  | some s =>
    if s.entry.Rev = expectedRevision then
      { L with
        order := L.order.filter (fun k => k ≠ key)
        slots := fun k =>
          if k = key then some { s with dirty := false, ttl := some L.volatileTTL }
          else L.slots k }
    else L
  | none => L

/-- Modelled from the spec: `Advance(key, expectedRevision) -> (nextKey,
nextEntry) | NotFound` of section 4.1: the gated clear, then "whether or not the
clear happened, return the new first dirty entry in the same call".  This is
what the script does once it holds a key and a revision; `SyncClient.next`
reaches it only through `Ledger.next`, behind the guard of `scriptInput`. -/
def Ledger.Advance (L : Ledger) (key : String) (expectedRevision : Int) :
    Ledger × Option (String × xData) :=
  (L.clear key expectedRevision, (L.clear key expectedRevision).PeekFirst)

/-- Modelled from the spec: a run of the ADVANCE script `luaNext` on the `keys`
and `args` it receives (section 6: it "takes `(key, expectedRevision)`"): with
one key and one revision it is `Advance`; with anything else there is no key
whose stored entry could match, so no clear happens and the first dirty entry is
returned. -/
def Ledger.runAdvance (L : Ledger) (keys : List String) (args : List Int) :
    Ledger × Option (String × xData) :=
  match keys, args with
  | [key], [rev] => L.Advance key rev
  | _, _ => (L, L.PeekFirst)

/-- The Advance as `SyncClient.next(key, rev)` reaches the ledger: `runScript`
runs the script on the keys and arguments of `scriptInput key rev` (lines 88-95
of `sync.go`). -/
def Ledger.next (L : Ledger) (key : String) (rev : Int) : Ledger × Option (String × xData) :=
  L.runAdvance (scriptInput key rev).1 (scriptInput key rev).2

/-- The revision gate of `Advance` as a property of a result `r` of the call
on the ledger `L`: a matching stored revision clears the key, a differing one
leaves the ledger unchanged. -/
def Gated (L : Ledger) (key : String) (rev : Int) (r : Ledger × Option (String × xData)) : Prop :=
  ∀ s, L.slots key = some s →
    (s.entry.Rev = rev → key ∉ r.1.order) ∧ (s.entry.Rev ≠ rev → r.1.order = L.order)

/-- A ledger with three dirty keys, `"db:coll:42"` at revision 2 ahead of
`"db:coll:43"` at revision 1 ahead of `"db:coll:44"` at revision 5, and a
Volatile TTL of 24 hours. -/
def exampleLedger : Ledger where
  order := ["db:coll:42", "db:coll:43", "db:coll:44"]
  slots := fun k =>
    if k = "db:coll:42" then some ⟨⟨2, "V2"⟩, true, none⟩
    else if k = "db:coll:43" then some ⟨⟨1, "W1"⟩, true, none⟩
    else if k = "db:coll:44" then some ⟨⟨5, "X5"⟩, true, none⟩
    else none
  volatileTTL := 24 * Hour

/-- A ledger whose only dirty key is `key`, stored at revision `rev`. -/
def singleLedger (key : String) (rev : Int) : Ledger where
  order := [key]
  slots := fun k => if k = key then some ⟨⟨rev, "V"⟩, true, none⟩ else none
  volatileTTL := 24 * Hour

/-! ### Facts about the split -/

theorem Index_of_not_mem (sep : Char) (s : List Char) (h : sep ∉ s) : Index s sep = none := by
  induction s with
  | nil => rfl
  | cons x xs ih =>
    have hx : ¬ x = sep := fun e => h (by simp [e])
    have hxs : sep ∉ xs := fun m => h (List.mem_cons_of_mem _ m)
    simp [Index, hx, ih hxs]

theorem Index_append_cons (sep : Char) (a b : List Char) (h : sep ∉ a) :
    Index (a ++ sep :: b) sep = some a.length := by
  induction a with
  | nil => simp [Index]
  | cons x xs ih =>
    have hx : ¬ x = sep := fun e => h (by simp [e])
    have hxs : sep ∉ xs := fun m => h (List.mem_cons_of_mem _ m)
    simp [Index, hx, ih hxs]

theorem genSplitLoop_of_not_mem (sep : Char) (k : Nat) (s : List Char) (h : sep ∉ s) :
    genSplitLoop sep k s = [s] := by
  cases k with
  | zero => rfl
  | succ k => simp [genSplitLoop, Index_of_not_mem sep s h]

theorem genSplitLoop_append_cons (sep : Char) (k : Nat) (a b : List Char) (h : sep ∉ a) :
    genSplitLoop sep (k + 1) (a ++ sep :: b) = a :: genSplitLoop sep k b := by
  simp [genSplitLoop, Index_append_cons sep a b h]

theorem SplitN_three_none (s : List Char) (h : ':' ∉ s) : SplitN s ':' 3 = [s] := by
  simp [SplitN, genSplitLoop_of_not_mem ':' _ s h]

theorem SplitN_three_one (a b : List Char) (ha : ':' ∉ a) (hb : ':' ∉ b) :
    SplitN (a ++ ':' :: b) ':' 3 = [a, b] := by
  have hlen : (a ++ ':' :: b).length = a.length + b.length + 1 := by
    simp [Nat.add_assoc]
  unfold SplitN
  rw [hlen]
  by_cases hc : 3 > a.length + b.length + 1 + 1
  · have h0 : a.length + b.length = 0 := by omega
    simp only [hc, if_true]
    rw [show a.length + b.length + 1 + 1 - 1 = 0 + 1 by omega]
    rw [genSplitLoop_append_cons ':' 0 a b ha]
    simp [genSplitLoop]
  · simp only [hc, if_false]
    rw [show 3 - 1 = 1 + 1 by rfl]
    rw [genSplitLoop_append_cons ':' 1 a b ha, genSplitLoop_of_not_mem ':' 1 b hb]
    simp

theorem SplitN_three_two (a b c : List Char) (ha : ':' ∉ a) (hb : ':' ∉ b) :
    SplitN (a ++ ':' :: (b ++ ':' :: c)) ':' 3 = [a, b, c] := by
  have hc : ¬ 3 > (a ++ ':' :: (b ++ ':' :: c)).length + 1 := by
    simp only [List.length_append, List.length_cons]
    omega
  unfold SplitN
  simp only [hc, if_false]
  rw [show 3 - 1 = 1 + 1 by rfl]
  rw [genSplitLoop_append_cons ':' 1 a _ ha, genSplitLoop_append_cons ':' 0 b c hb]
  simp [genSplitLoop]

/-- Every list containing `sep` splits at its first occurrence. -/
theorem exists_first_split (sep : Char) (s : List Char) (h : sep ∈ s) :
    ∃ a b, s = a ++ sep :: b ∧ sep ∉ a := by
  induction s with
  | nil => simp at h
  | cons x xs ih =>
    by_cases hx : x = sep
    · exact ⟨[], xs, by simp [hx], by simp⟩
    · have hxs : sep ∈ xs := by
        rcases List.mem_cons.1 h with e | m
        · exact absurd e.symm hx
        · exact m
      obtain ⟨a, b, hab, ha⟩ := ih hxs
      refine ⟨x :: a, b, by simp [hab], ?_⟩
      intro m
      rcases List.mem_cons.1 m with e | m
      · exact hx e.symm
      · exact ha m

theorem MapKey_none (key : String) (h : ':' ∉ key.data) :
    defaultKeyMappingStrategy.MapKey key = ("default", "default", key) := by
  simp [defaultKeyMappingStrategy.MapKey, SplitN_three_none key.data h]

theorem MapKey_one (a b : String) (ha : ':' ∉ a.data) (hb : ':' ∉ b.data) :
    defaultKeyMappingStrategy.MapKey (a ++ ":" ++ b) = ("default", a, b) := by
  have hd : (a ++ ":" ++ b).data = a.data ++ ':' :: b.data := by
    simp [String.data_append]
  simp [defaultKeyMappingStrategy.MapKey, hd, SplitN_three_one a.data b.data ha hb]

theorem MapKey_two (a b c : String) (ha : ':' ∉ a.data) (hb : ':' ∉ b.data) :
    defaultKeyMappingStrategy.MapKey (a ++ ":" ++ b ++ ":" ++ c) = (a, b, c) := by
  have hd : (a ++ ":" ++ b ++ ":" ++ c).data = a.data ++ ':' :: (b.data ++ ':' :: c.data) := by
    simp [String.data_append]
  simp [defaultKeyMappingStrategy.MapKey, hd, SplitN_three_two a.data b.data c.data ha hb]

/-- A key with at least two `":"` is `a:b:c` with `a`, `b` free of `":"`. -/
theorem exists_two_split (key : String) (h : 2 ≤ key.data.count ':') :
    ∃ a b c : String, key = a ++ ":" ++ b ++ ":" ++ c ∧ ':' ∉ a.data ∧ ':' ∉ b.data := by
  have hm : ':' ∈ key.data := List.count_pos_iff.1 (by omega)
  obtain ⟨a, r, hk, ha⟩ := exists_first_split ':' key.data hm
  have hr : 1 ≤ r.count ':' := by
    rw [hk, List.count_append, List.count_cons_self, List.count_eq_zero_of_not_mem ha] at h
    omega
  obtain ⟨b, c, hr2, hb⟩ := exists_first_split ':' r (List.count_pos_iff.1 (by omega))
  refine ⟨String.mk a, String.mk b, String.mk c, ?_, ha, hb⟩
  apply String.ext
  simp [String.data_append, hk, hr2]

/-! ### Options -/

theorem applyOptions_append (o : options) (l : List funcOption) (x : funcOption) :
    applyOptions o (l ++ [x]) = x.apply (applyOptions o l) := by
  simp [applyOptions, List.foldl_append]

theorem applyOptions_build (calls : List OptionCall) (o : options) :
    (applyOptions o (calls.map OptionCall.build)).volatileTTL =
        (lastVolatileTTL calls).getD o.volatileTTL ∧
    (applyOptions o (calls.map OptionCall.build)).keyMappingStrategy =
        (lastStrategy calls).getD o.keyMappingStrategy := by
  induction calls using List.reverseRecOn with
  | nil => exact ⟨rfl, rfl⟩
  | append_singleton l x ih =>
    rw [List.map_append, List.map_singleton, applyOptions_append]
    obtain ⟨h1, h2⟩ := ih
    unfold lastVolatileTTL lastStrategy at *
    rw [List.filterMap_append, List.filterMap_append, List.getLast?_append, List.getLast?_append]
    cases x <;>
      simp [OptionCall.build, funcOption.apply, WithVolatileTTL, WithKeyMappingStrategy,
        WithKeyMappingStrategyFunc, OptionCall.ttl, OptionCall.strategy, h1, h2]

/-! ### The steps of `Serve` -/

theorem pcAt_succ (cli : SyncClient) (i : Nat) :
    cli.pcAt (i + 1) = (cli.step i (cli.pcAt i)).2 := rfl

theorem eventAt_peek {cli : SyncClient} {i : Nat} {out : Outcome}
    (h : cli.eventAt i = some (Event.peek out)) :
    cli.pcAt i = Pc.peek ∧ out = cli.peek i := by
  unfold SyncClient.eventAt at h
  cases hp : cli.pcAt i <;> rw [hp] at h <;> simp [SyncClient.step] at h
  · exact ⟨rfl, h.symm⟩
  · split at h <;> simp at h

theorem eventAt_save {cli : SyncClient} {i : Nat} {key : String} {data : xData}
    {err : Option Err} (h : cli.eventAt i = some (Event.save key data err)) :
    cli.pcAt i = Pc.save key data ∧ err = cli.save i key data := by
  unfold SyncClient.eventAt at h
  cases hp : cli.pcAt i <;> rw [hp] at h <;> simp [SyncClient.step] at h
  rename_i k d
  cases hs : cli.save i k d <;> rw [hs] at h <;> simp at h <;>
    obtain ⟨rfl, rfl, rfl⟩ := h <;> simp [hs]

theorem eventAt_debugf {cli : SyncClient} {i : Nat} {key : String}
    (h : cli.eventAt i = some (Event.debugf key)) :
    ∃ data, cli.pcAt i = Pc.debugf key data := by
  unfold SyncClient.eventAt at h
  cases hp : cli.pcAt i <;> rw [hp] at h <;> simp [SyncClient.step] at h
  · split at h <;> simp at h
  · rename_i k d
    exact ⟨d, by rw [h]⟩

theorem eventAt_pace {cli : SyncClient} {i : Nat} {c : SelectCase}
    (h : cli.eventAt i = some (Event.pace c)) :
    (∃ key data, cli.pcAt i = Pc.pace key data) ∧ c = cli.world.selectTick i := by
  unfold SyncClient.eventAt at h
  cases hp : cli.pcAt i <;> rw [hp] at h <;> simp [SyncClient.step] at h
  · split at h <;> simp at h
  · exact ⟨⟨_, _, rfl⟩, h.symm⟩

theorem eventAt_next {cli : SyncClient} {i : Nat} {key : String} {rev : Int} {out : Outcome}
    (h : cli.eventAt i = some (Event.next key rev out)) :
    ∃ data, cli.pcAt i = Pc.next key data ∧ data.Rev = rev ∧ out = cli.next i key rev := by
  unfold SyncClient.eventAt at h
  cases hp : cli.pcAt i <;> rw [hp] at h <;> simp [SyncClient.step] at h
  · split at h <;> simp at h
  · rename_i k d
    obtain ⟨rfl, rfl, rfl⟩ := h
    exact ⟨d, rfl, rfl, rfl⟩

theorem eventAt_errorf {cli : SyncClient} {i : Nat} {err : Err}
    (h : cli.eventAt i = some (Event.errorf err)) : cli.pcAt i = Pc.errorf err := by
  unfold SyncClient.eventAt at h
  cases hp : cli.pcAt i <;> rw [hp] at h <;> simp [SyncClient.step] at h
  · split at h <;> simp at h
  · rw [h]

theorem eventAt_halt {cli : SyncClient} {i : Nat} {c : SelectCase}
    (h : cli.eventAt i = some (Event.halt c)) :
    cli.pcAt i = Pc.halt ∧ c = cli.world.selectAfter i := by
  unfold SyncClient.eventAt at h
  cases hp : cli.pcAt i <;> rw [hp] at h <;> simp [SyncClient.step] at h
  · split at h <;> simp at h
  · exact ⟨rfl, h.symm⟩


theorem eventAt_none {cli : SyncClient} {i : Nat} (h : cli.eventAt i = none) :
    cli.pcAt i = Pc.returned ∨ cli.pcAt i = Pc.panicked := by
  unfold SyncClient.eventAt at h
  cases hp : cli.pcAt i <;> rw [hp] at h <;> simp [SyncClient.step] at h
  · split at h <;> simp at h
  · simp
  · simp

theorem pcAt_zero (cli : SyncClient) : cli.pcAt 0 = Pc.peek ∨ cli.pcAt 0 = Pc.panicked := by
  show cli.start = Pc.peek ∨ cli.start = Pc.panicked
  unfold SyncClient.start
  split
  · exact Or.inr rfl
  · exact Or.inl rfl

theorem start_of_rate_le (cli : SyncClient) (h : cli.opts.syncRate ≤ 1000000000) :
    cli.pcAt 0 = Pc.peek := by
  show cli.start = Pc.peek
  unfold SyncClient.start
  have hn : ¬ (cli.opts.syncRate > 0 ∧ Second / cli.opts.syncRate ≤ 0) := by
    rintro ⟨hpos, hq⟩
    have h1 : (1 : Int) ≤ Second / cli.opts.syncRate :=
      Int.le_ediv_of_mul_le hpos (by simp only [Second]; omega)
    omega
  rw [if_neg hn]

theorem start_of_rate_gt (cli : SyncClient) (h : 1000000000 < cli.opts.syncRate) :
    cli.pcAt 0 = Pc.panicked := by
  show cli.start = Pc.panicked
  unfold SyncClient.start
  have hq : Second / cli.opts.syncRate = 0 :=
    Int.ediv_eq_zero_of_lt (by decide) (by simp only [Second]; omega)
  rw [if_pos ⟨by omega, by omega⟩]

theorem onError_cases (err : Err) :
    (err = Err.Nil ∧ onError err = Pc.halt) ∨ (err ≠ Err.Nil ∧ onError err = Pc.errorf err) := by
  unfold onError
  by_cases h : err = Err.Nil
  · left; simp [h]
  · right; simp [h]

theorem onOutcome_cases (out : Outcome) :
    (out = Outcome.panic ∧ onOutcome out = Pc.panicked) ∨
    (∃ key data, out = Outcome.ret key data none ∧ onOutcome out = Pc.save key data) ∨
    (∃ key data err, out = Outcome.ret key data (some err) ∧ onOutcome out = onError err) := by
  cases out with
  | panic => left; exact ⟨rfl, rfl⟩
  | ret key data err =>
    cases err with
    | none => right; left; exact ⟨key, data, rfl, rfl⟩
    | some err => right; right; exact ⟨key, data, err, rfl, rfl⟩

theorem onError_ne_debugf (err : Err) (k : String) (d : xData) : onError err ≠ Pc.debugf k d := by
  rcases onError_cases err with ⟨_, e⟩ | ⟨_, e⟩ <;> simp [e]

theorem onError_ne_pace (err : Err) (k : String) (d : xData) : onError err ≠ Pc.pace k d := by
  rcases onError_cases err with ⟨_, e⟩ | ⟨_, e⟩ <;> simp [e]

theorem onError_ne_next (err : Err) (k : String) (d : xData) : onError err ≠ Pc.next k d := by
  rcases onError_cases err with ⟨_, e⟩ | ⟨_, e⟩ <;> simp [e]

theorem onError_ne_save (err : Err) (k : String) (d : xData) : onError err ≠ Pc.save k d := by
  rcases onError_cases err with ⟨_, e⟩ | ⟨_, e⟩ <;> simp [e]

theorem onError_ne_returned (err : Err) : onError err ≠ Pc.returned := by
  rcases onError_cases err with ⟨_, e⟩ | ⟨_, e⟩ <;> simp [e]

theorem onOutcome_ne_debugf (out : Outcome) (k : String) (d : xData) :
    onOutcome out ≠ Pc.debugf k d := by
  rcases onOutcome_cases out with ⟨_, e⟩ | ⟨_, _, _, e⟩ | ⟨_, _, err, _, e⟩ <;>
    simp [e, onError_ne_debugf]

theorem onOutcome_ne_pace (out : Outcome) (k : String) (d : xData) :
    onOutcome out ≠ Pc.pace k d := by
  rcases onOutcome_cases out with ⟨_, e⟩ | ⟨_, _, _, e⟩ | ⟨_, _, err, _, e⟩ <;>
    simp [e, onError_ne_pace]

theorem onOutcome_ne_next (out : Outcome) (k : String) (d : xData) :
    onOutcome out ≠ Pc.next k d := by
  rcases onOutcome_cases out with ⟨_, e⟩ | ⟨_, _, _, e⟩ | ⟨_, _, err, _, e⟩ <;>
    simp [e, onError_ne_next]

theorem onOutcome_ne_returned (out : Outcome) : onOutcome out ≠ Pc.returned := by
  rcases onOutcome_cases out with ⟨_, e⟩ | ⟨_, _, _, e⟩ | ⟨_, _, err, _, e⟩ <;>
    simp [e, onError_ne_returned]

theorem pcAt_succ_debugf {cli : SyncClient} {j : Nat} {key : String} {data : xData}
    (h : cli.pcAt (j + 1) = Pc.debugf key data) :
    cli.pcAt j = Pc.save key data ∧ cli.save j key data = none := by
  rw [pcAt_succ] at h
  cases hp : cli.pcAt j <;> rw [hp] at h <;>
    simp [SyncClient.step, onOutcome_ne_debugf, onError_ne_debugf] at h
  · rename_i k d
    cases hs : cli.save j k d with
    | none =>
      rw [hs] at h
      simp only [Pc.debugf.injEq] at h
      obtain ⟨rfl, rfl⟩ := h
      exact ⟨rfl, hs⟩
    | some err =>
      rw [hs] at h
      exact absurd h (onError_ne_debugf _ _ _)
  · split at h <;> cases h
  · split at h <;> cases h
  · split at h <;> cases h

theorem pcAt_succ_pace {cli : SyncClient} {j : Nat} {key : String} {data : xData}
    (h : cli.pcAt (j + 1) = Pc.pace key data) :
    cli.pcAt j = Pc.debugf key data ∧ cli.opts.syncRate > 0 := by
  rw [pcAt_succ] at h
  cases hp : cli.pcAt j <;> rw [hp] at h <;>
    simp [SyncClient.step, onOutcome_ne_pace, onError_ne_pace] at h
  · rename_i k d
    cases hs : cli.save j k d <;> rw [hs] at h <;> simp [onError_ne_pace] at h
  · rename_i k d
    by_cases hr : cli.opts.syncRate > 0
    · simp [hr] at h
      obtain ⟨rfl, rfl⟩ := h
      exact ⟨rfl, hr⟩
    · simp [hr] at h
  · split at h <;> cases h
  · split at h <;> cases h

theorem pcAt_succ_next {cli : SyncClient} {j : Nat} {key : String} {data : xData}
    (h : cli.pcAt (j + 1) = Pc.next key data) :
    (cli.pcAt j = Pc.debugf key data ∧ ¬ cli.opts.syncRate > 0) ∨
    (cli.pcAt j = Pc.pace key data ∧ cli.world.selectTick j = SelectCase.fired) := by
  rw [pcAt_succ] at h
  cases hp : cli.pcAt j <;> rw [hp] at h <;>
    simp [SyncClient.step, onOutcome_ne_next, onError_ne_next] at h
  · rename_i k d
    cases hs : cli.save j k d <;> rw [hs] at h <;> simp [onError_ne_next] at h
  · rename_i k d
    by_cases hr : cli.opts.syncRate > 0
    · simp [hr] at h
    · simp [hr] at h
      obtain ⟨rfl, rfl⟩ := h
      left
      exact ⟨rfl, hr⟩
  · rename_i k d
    cases hs : cli.world.selectTick j <;> rw [hs] at h <;> simp at h
    obtain ⟨rfl, rfl⟩ := h
    right
    exact ⟨rfl, rfl⟩
  · split at h <;> cases h

theorem pcAt_returned_stable {cli : SyncClient} {m : Nat} (h : cli.pcAt m = Pc.returned) :
    ∀ j, m ≤ j → cli.pcAt j = Pc.returned := by
  intro j hj
  induction j with
  | zero =>
    have : m = 0 := by omega
    rw [← this]; exact h
  | succ j ih =>
    by_cases hm : m = j + 1
    · rw [← hm]; exact h
    · have := ih (by omega)
      rw [pcAt_succ, this]
      rfl

theorem pcAt_panicked_stable {cli : SyncClient} {m : Nat} (h : cli.pcAt m = Pc.panicked) :
    ∀ j, m ≤ j → cli.pcAt j = Pc.panicked := by
  intro j hj
  induction j with
  | zero =>
    have hm : m = 0 := by omega
    rw [← hm]; exact h
  | succ j ih =>
    by_cases hm : m = j + 1
    · rw [← hm]; exact h
    · have hprev := ih (by omega)
      rw [pcAt_succ, hprev]
      rfl

theorem eventAt_of_panicked {cli : SyncClient} {j : Nat} (h : cli.pcAt j = Pc.panicked) :
    cli.eventAt j = none := by
  unfold SyncClient.eventAt
  rw [h]
  rfl

theorem eventAt_of_returned {cli : SyncClient} {j : Nat} (h : cli.pcAt j = Pc.returned) :
    cli.eventAt j = none := by
  unfold SyncClient.eventAt
  rw [h]
  rfl

theorem eventAt_of_peek {cli : SyncClient} {j : Nat} (h : cli.pcAt j = Pc.peek) :
    cli.eventAt j = some (Event.peek (cli.peek j)) := by
  unfold SyncClient.eventAt
  rw [h]
  rfl

theorem eventAt_of_halt {cli : SyncClient} {j : Nat} (h : cli.pcAt j = Pc.halt) :
    cli.eventAt j = some (Event.halt (cli.world.selectAfter j)) := by
  unfold SyncClient.eventAt
  rw [h]
  rfl

theorem eventAt_of_errorf {cli : SyncClient} {j : Nat} {err : Err}
    (h : cli.pcAt j = Pc.errorf err) : cli.eventAt j = some (Event.errorf err) := by
  unfold SyncClient.eventAt
  rw [h]
  rfl

theorem eventAt_of_debugf {cli : SyncClient} {j : Nat} {key : String} {data : xData}
    (h : cli.pcAt j = Pc.debugf key data) : cli.eventAt j = some (Event.debugf key) := by
  unfold SyncClient.eventAt
  rw [h]
  rfl

theorem eventAt_of_pace {cli : SyncClient} {j : Nat} {key : String} {data : xData}
    (h : cli.pcAt j = Pc.pace key data) :
    cli.eventAt j = some (Event.pace (cli.world.selectTick j)) := by
  unfold SyncClient.eventAt
  rw [h]
  rfl

theorem eventAt_of_next {cli : SyncClient} {j : Nat} {key : String} {data : xData}
    (h : cli.pcAt j = Pc.next key data) :
    cli.eventAt j = some (Event.next key data.Rev (cli.next j key data.Rev)) := by
  unfold SyncClient.eventAt
  rw [h]
  rfl

theorem eventAt_of_save {cli : SyncClient} {j : Nat} {key : String} {data : xData}
    (h : cli.pcAt j = Pc.save key data) :
    cli.eventAt j = some (Event.save key data (cli.save j key data)) := by
  unfold SyncClient.eventAt
  rw [h]
  simp only [SyncClient.step]
  cases cli.save j key data <;> rfl

theorem pcAt_after_peek {cli : SyncClient} {j : Nat} (h : cli.pcAt j = Pc.peek) :
    cli.pcAt (j + 1) = onOutcome (cli.peek j) := by
  rw [pcAt_succ, h]
  rfl

theorem pcAt_after_next {cli : SyncClient} {j : Nat} {key : String} {data : xData}
    (h : cli.pcAt j = Pc.next key data) :
    cli.pcAt (j + 1) = onOutcome (cli.next j key data.Rev) := by
  rw [pcAt_succ, h]
  rfl

theorem pcAt_after_save_ok {cli : SyncClient} {j : Nat} {key : String} {data : xData}
    (h : cli.pcAt j = Pc.save key data) (hs : cli.save j key data = none) :
    cli.pcAt (j + 1) = Pc.debugf key data := by
  rw [pcAt_succ, h]
  simp only [SyncClient.step, hs]

theorem pcAt_after_save_err {cli : SyncClient} {j : Nat} {key : String} {data : xData}
    {err : Err} (h : cli.pcAt j = Pc.save key data) (hs : cli.save j key data = some err) :
    cli.pcAt (j + 1) = onError err := by
  rw [pcAt_succ, h]
  simp only [SyncClient.step, hs]

theorem pcAt_after_debugf {cli : SyncClient} {j : Nat} {key : String} {data : xData}
    (h : cli.pcAt j = Pc.debugf key data) :
    cli.pcAt (j + 1) = if cli.opts.syncRate > 0 then Pc.pace key data else Pc.next key data := by
  rw [pcAt_succ, h]
  rfl

theorem pcAt_after_pace {cli : SyncClient} {j : Nat} {key : String} {data : xData}
    (h : cli.pcAt j = Pc.pace key data) :
    cli.pcAt (j + 1) =
      match cli.world.selectTick j with
      | SelectCase.done => Pc.returned
      | SelectCase.fired => Pc.next key data := by
  rw [pcAt_succ, h]
  rfl

theorem pcAt_after_errorf {cli : SyncClient} {j : Nat} {err : Err}
    (h : cli.pcAt j = Pc.errorf err) : cli.pcAt (j + 1) = Pc.halt := by
  rw [pcAt_succ, h]
  rfl

theorem pcAt_after_halt {cli : SyncClient} {j : Nat} (h : cli.pcAt j = Pc.halt) :
    cli.pcAt (j + 1) =
      match cli.world.selectAfter j with
      | SelectCase.done => Pc.returned
      | SelectCase.fired => Pc.peek := by
  rw [pcAt_succ, h]
  rfl

/-- After an event with error `err`, `Serve` stands at `onError err`. -/
theorem pcAt_after_error {cli : SyncClient} {i : Nat} {e : Event} {err : Err}
    (h : cli.eventAt i = some e) (he : e.error = some err) :
    cli.pcAt (i + 1) = onError err := by
  cases e with
  | peek out =>
    obtain ⟨hp, rfl⟩ := eventAt_peek h
    rw [pcAt_after_peek hp]
    cases ho : cli.peek i with
    | panic => rw [ho] at he; simp [Event.error, Outcome.err] at he
    | ret k d e' =>
      rw [ho] at he
      simp only [Event.error, Outcome.err] at he
      rw [he]
      rfl
  | next key rev out =>
    obtain ⟨d, hp, rfl, rfl⟩ := eventAt_next h
    rw [pcAt_after_next hp]
    cases ho : cli.next i key d.Rev with
    | panic => rw [ho] at he; simp [Event.error, Outcome.err] at he
    | ret k d' e' =>
      rw [ho] at he
      simp only [Event.error, Outcome.err] at he
      rw [he]
      rfl
  | save key data e' =>
    obtain ⟨hp, hs⟩ := eventAt_save h
    simp only [Event.error] at he
    rw [he] at hs
    exact pcAt_after_save_err hp hs.symm
  | debugf _ => simp [Event.error] at he
  | pace _ => simp [Event.error] at he
  | errorf _ => simp [Event.error] at he
  | halt _ => simp [Event.error] at he

/-- Once `Serve` waits in the backoff, the first call that follows is a `peek`. -/
theorem first_call_after_halt {cli : SyncClient} {m : Nat} (hm : cli.pcAt m = Pc.halt)
    (j : Nat) (e : Event) (hj : m < j) (he : cli.eventAt j = some e)
    (hno : ∀ n e', m < n → n < j → cli.eventAt n = some e' → e'.isCall = false) :
    ∃ out, e = Event.peek out := by
  have hnext := pcAt_after_halt hm
  cases hsel : cli.world.selectAfter m with
  | done =>
    rw [hsel] at hnext
    have := eventAt_of_returned (pcAt_returned_stable hnext j (by omega))
    rw [this] at he
    cases he
  | fired =>
    rw [hsel] at hnext
    have hev := eventAt_of_peek hnext
    by_cases hjm : j = m + 1
    · subst hjm
      rw [hev] at he
      exact ⟨_, (Option.some.inj he).symm⟩
    · have := hno (m + 1) _ (by omega) (by omega) hev
      simp [Event.isCall] at this


theorem onError_eq_errorf {err err' : Err} (h : onError err = Pc.errorf err') :
    err = err' ∧ err' ≠ Err.Nil := by
  rcases onError_cases err with ⟨_, e⟩ | ⟨hne, e⟩
  · rw [e] at h; cases h
  · rw [e] at h
    cases h
    exact ⟨rfl, hne⟩

theorem onOutcome_eq_errorf {out : Outcome} {err : Err} (h : onOutcome out = Pc.errorf err) :
    out.err = some err ∧ err ≠ Err.Nil := by
  rcases onOutcome_cases out with ⟨_, e⟩ | ⟨_, _, _, e⟩ | ⟨_, _, err', rfl, e⟩
  · rw [e] at h; cases h
  · rw [e] at h; cases h
  · rw [e] at h
    obtain ⟨rfl, hne⟩ := onError_eq_errorf h
    exact ⟨rfl, hne⟩

theorem pcAt_succ_errorf {cli : SyncClient} {j : Nat} {err : Err}
    (h : cli.pcAt (j + 1) = Pc.errorf err) :
    err ≠ Err.Nil ∧ ∃ j' e, j + 1 = j' + 1 ∧ cli.eventAt j' = some e ∧ e.error = some err := by
  rw [pcAt_succ] at h
  cases hp : cli.pcAt j <;> rw [hp] at h <;> simp only [SyncClient.step] at h
  · obtain ⟨h1, h2⟩ := onOutcome_eq_errorf h
    exact ⟨h2, j, _, rfl, eventAt_of_peek hp, h1⟩
  · rename_i k d
    cases hs : cli.save j k d with
    | none => rw [hs] at h; cases h
    | some err' =>
      rw [hs] at h
      obtain ⟨rfl, h2⟩ := onError_eq_errorf h
      refine ⟨h2, j, _, rfl, eventAt_of_save hp, ?_⟩
      rw [hs]
      rfl
  · split at h <;> cases h
  · split at h <;> cases h
  · rename_i k d
    obtain ⟨h1, h2⟩ := onOutcome_eq_errorf h
    exact ⟨h2, j, _, rfl, eventAt_of_next hp, h1⟩
  · cases h
  · split at h <;> cases h
  · cases h
  · cases h

/-! ### Unpacking a script reply -/

theorem unpack_panic (unmarshal : String → Option Err × xData) (r : Reply)
    (h : ∀ a0 a1, r ≠ Reply.list [a0, a1]) : unpack unmarshal (Except.ok r) = Outcome.panic := by
  unfold unpack
  split
  · rename_i heq; cases heq
  · rename_i a0 a1 heq
    cases heq
    exact absurd rfl (h a0 a1)
  · rfl

theorem unpack_ret (unmarshal : String → Option Err × xData) (res : Except Err Reply)
    (k : String) (data : xData) (h : unpack unmarshal res = Outcome.ret k data none) :
    ∃ s, res = Except.ok (Reply.list [Reply.str k, Reply.str s]) ∧ unmarshal s = (none, data) := by
  unfold unpack at h
  split at h
  · cases h
  · rename_i a0 a1
    split at h
    · rename_i s
      split at h
      · cases h
      · rename_i d hu
        split at h
        · rename_i k'
          cases h
          exact ⟨s, rfl, hu⟩
        · cases h
    · cases h
  · cases h

/-! ## The claims -/

/-- Claim C1: `defaultKeyMappingStrategy.MapKey` follows the default policy on `":"`:
a key without `":"` maps to `("default", "default", key)`; a key `a:b` with exactly
one `":"` maps to `("default", a, b)`; a key with two or more `":"`, written
`a:b:c` with `a` and `b` free of `":"` and `c` arbitrary, maps to `(a, b, c)`;
and the three examples of the specification evaluate as stated. -/
theorem C1_MapKey_default_policy (key : String) :
    (':' ∉ key.data →
      defaultKeyMappingStrategy.MapKey key = ("default", "default", key)) ∧
    (∀ a b : String, key = a ++ ":" ++ b → ':' ∉ a.data → ':' ∉ b.data →
      defaultKeyMappingStrategy.MapKey key = ("default", a, b)) ∧
    (∀ a b c : String, key = a ++ ":" ++ b ++ ":" ++ c → ':' ∉ a.data → ':' ∉ b.data →
      defaultKeyMappingStrategy.MapKey key = (a, b, c)) ∧
    defaultKeyMappingStrategy.MapKey "db:coll:42" = ("db", "coll", "42") ∧
    defaultKeyMappingStrategy.MapKey "coll:42" = ("default", "coll", "42") ∧
    defaultKeyMappingStrategy.MapKey "42" = ("default", "default", "42") := by
  refine ⟨MapKey_none key, ?_, ?_, by decide, by decide, by decide⟩
  · intro a b hk ha hb
    rw [hk]
    exact MapKey_one a b ha hb
  · intro a b c hk ha hb
    rw [hk]
    exact MapKey_two a b c ha hb

/-- Witness for C1: the three cases at `"42"`, `"coll:42"` and `"db:coll:42:x"`. -/
theorem C1_MapKey_default_policy_witness :
    defaultKeyMappingStrategy.MapKey "42" = ("default", "default", "42") ∧
    defaultKeyMappingStrategy.MapKey "coll:42" = ("default", "coll", "42") ∧
    defaultKeyMappingStrategy.MapKey "db:coll:42:x" = ("db", "coll", "42:x") :=
  ⟨(C1_MapKey_default_policy "42").1 (by decide),
   (C1_MapKey_default_policy "coll:42").2.1 "coll" "42" (by decide) (by decide) (by decide),
   (C1_MapKey_default_policy "db:coll:42:x").2.2.1 "db" "coll" "42:x"
     (by decide) (by decide) (by decide)⟩

/-- Claim C2: in every run of `Serve`, persistence is acknowledged only after
it succeeded.  Every Advance call `next(key, rev)` that `Serve` issues is preceded
by a call `save(key, data)` that returned no error and has `data.Rev = rev`, with
no other save or ledger call in between; and after a `save` that returned an
error the first save or ledger call that follows is a `peek`, so no Advance is
issued for that entry before peeking again. -/
theorem C2_ack_only_after_successful_save (cli : SyncClient) :
    (∀ i key rev out, cli.eventAt i = some (Event.next key rev out) →
      ∃ j data, j < i ∧ cli.eventAt j = some (Event.save key data none) ∧ data.Rev = rev ∧
        ∀ m e, j < m → m < i → cli.eventAt m = some e → e.isCall = false) ∧
    (∀ i key data err, cli.eventAt i = some (Event.save key data (some err)) →
      ∀ j e, i < j → cli.eventAt j = some e → e.isCall = true →
        (∀ m e', i < m → m < j → cli.eventAt m = some e' → e'.isCall = false) →
        ∃ out, e = Event.peek out) := by
  constructor
  · intro i key rev out h
    obtain ⟨data, hp, hrev, -⟩ := eventAt_next h
    cases i with
    | zero => rcases pcAt_zero cli with h0 | h0 <;> rw [h0] at hp <;> cases hp
    | succ j =>
      rcases pcAt_succ_next hp with ⟨hd, -⟩ | ⟨hpace, -⟩
      · cases j with
        | zero => rcases pcAt_zero cli with h0 | h0 <;> rw [h0] at hd <;> cases hd
        | succ j' =>
          obtain ⟨hs, hok⟩ := pcAt_succ_debugf hd
          refine ⟨j', data, by omega, ?_, hrev, ?_⟩
          · rw [eventAt_of_save hs, hok]
          · intro m e h1 h2 hm
            have : m = j' + 1 := by omega
            subst this
            rw [eventAt_of_debugf hd] at hm
            cases hm
            rfl
      · cases j with
        | zero => rcases pcAt_zero cli with h0 | h0 <;> rw [h0] at hpace <;> cases hpace
        | succ j' =>
          obtain ⟨hd, -⟩ := pcAt_succ_pace hpace
          cases j' with
          | zero => rcases pcAt_zero cli with h0 | h0 <;> rw [h0] at hd <;> cases hd
          | succ j0 =>
            obtain ⟨hs, hok⟩ := pcAt_succ_debugf hd
            refine ⟨j0, data, by omega, ?_, hrev, ?_⟩
            · rw [eventAt_of_save hs, hok]
            · intro m e h1 h2 hm
              have : m = j0 + 1 ∨ m = j0 + 2 := by omega
              rcases this with rfl | rfl
              · rw [eventAt_of_debugf hd] at hm
                cases hm
                rfl
              · rw [eventAt_of_pace hpace] at hm
                cases hm
                rfl
  · intro i key data err h j e hij hej hcall hno
    have hnext := pcAt_after_error h (show (Event.save key data (some err)).error = some err from rfl)
    rcases onError_cases err with ⟨-, e1⟩ | ⟨-, e1⟩
    · rw [e1] at hnext
      by_cases hj : j = i + 1
      · subst hj
        rw [eventAt_of_halt hnext] at hej
        cases hej
        simp [Event.isCall] at hcall
      · exact first_call_after_halt hnext j e (by omega) hej
          (fun n e' h1 h2 => hno n e' (by omega) h2)
    · rw [e1] at hnext
      have hhalt := pcAt_after_errorf hnext
      by_cases hj : j = i + 1
      · subst hj
        rw [eventAt_of_errorf hnext] at hej
        cases hej
        simp [Event.isCall] at hcall
      · by_cases hj2 : j = i + 2
        · subst hj2
          rw [eventAt_of_halt hhalt] at hej
          cases hej
          simp [Event.isCall] at hcall
        · exact first_call_after_halt hhalt j e (by omega) hej
            (fun n e' h1 h2 => hno n e' (by omega) h2)

/-- Witness for C2: in the example world without a stop, the Advance of
interaction 3 follows a successful save of the same key and revision; and with a
failing upsert the first call after the failed save of interaction 1 is the
`peek` of interaction 4. -/
theorem C2_ack_only_after_successful_save_witness :
    (∃ j data, j < 3 ∧
      (exampleClient 0 none false).eventAt j = some (Event.save "db:coll:42" data none) ∧
      data.Rev = 1 ∧
      ∀ m e, j < m → m < 3 → (exampleClient 0 none false).eventAt m = some e →
        e.isCall = false) ∧
    (∃ out, Event.peek (Outcome.ret "db:coll:42" ⟨1, "V1"⟩ none) = Event.peek out) :=
  ⟨(C2_ack_only_after_successful_save (exampleClient 0 none false)).1 3 "db:coll:42" 1
      (Outcome.ret "" ⟨0, ""⟩ (some Err.Nil)) (by decide),
   (C2_ack_only_after_successful_save (exampleClient 0 none true)).2 1 "db:coll:42" ⟨1, "V1"⟩
      (Err.other "mongo: unavailable") (by decide) 4
      (Event.peek (Outcome.ret "db:coll:42" ⟨1, "V1"⟩ none)) (by decide) (by decide) (by decide)
      (by
        intro m e h1 h2 hm
        have hcases : m = 2 ∨ m = 3 := by omega
        rcases hcases with rfl | rfl
        · have h : (exampleClient 0 none true).eventAt 2 =
              some (Event.errorf (Err.other "mongo: unavailable")) := by decide
          rw [h] at hm
          cases hm
          rfl
        · have h : (exampleClient 0 none true).eventAt 3 =
              some (Event.halt SelectCase.fired) := by decide
          rw [h] at hm
          cases hm
          rfl)⟩

/-- Counterexample to C3: through `next` the gate fails outside the guard of
`runScript`.  On a ledger whose only dirty key `"db:coll:42"` is stored at
revision 0, `next("db:coll:42", 0)` hands the script no key and no revision, so
the key, whose stored revision equals the expected one, stays in the dirty set;
likewise for the empty key stored at revision 7 and `next("", 7)`.  And no
script at all, whatever it does with what it receives, makes `next`
revision-gated for every key and revision. -/
theorem C3_counterexample :
    ((singleLedger "db:coll:42" 0).next "db:coll:42" 0).1.order = ["db:coll:42"] ∧
    ((singleLedger "" 7).next "" 7).1.order = [""] ∧
    ¬ ∃ script : Ledger → List String → List Int → Ledger × Option (String × xData),
        ∀ (L : Ledger) (key : String) (rev : Int),
          Gated L key rev (script L (scriptInput key rev).1 (scriptInput key rev).2) := by
  refine ⟨by decide, by decide, ?_⟩
  rintro ⟨script, h⟩
  have hslot : (singleLedger "db:coll:42" 0).slots "db:coll:42" = some ⟨⟨0, "V"⟩, true, none⟩ :=
    rfl
  have h0 := (h (singleLedger "db:coll:42" 0) "db:coll:42" 0 _ hslot).1 rfl
  have h1 := (h (singleLedger "db:coll:42" 0) "db:coll:42" (-1) _ hslot).2 (by decide)
  have e0 : scriptInput "db:coll:42" 0 = ([], []) := by decide
  have e1 : scriptInput "db:coll:42" (-1) = ([], []) := by decide
  rw [e0] at h0
  rw [e1] at h1
  rw [h1] at h0
  exact h0 (by decide)

/-- Claim C3, amended: `Advance(key, expectedRevision)` as `next` issues it for
a non-empty key and an expected revision above 0 is revision-gated.  The script
then receives exactly `(key, expectedRevision)`.  If the entry stored for `key`
has revision `expectedRevision`, the dirty flag of the key is cleared, the
Volatile TTL is applied, the key is removed from the ordered dirty set, whose
other keys keep their order, and every other key keeps its slot; if the stored
revision differs (or no entry is stored) the ledger is unchanged, so the entry
stays dirty; in both cases the call returns the first dirty entry of the
resulting ledger, `NotFound` when none is dirty, and never fails. -/
theorem C3_next_revision_gated (L : Ledger) (key : String) (expectedRevision : Int)
    (hkey : key ≠ "") (hrev : expectedRevision > 0) :
    L.next key expectedRevision = L.Advance key expectedRevision ∧
    (∀ s, L.slots key = some s → s.entry.Rev = expectedRevision →
      (L.next key expectedRevision).1.slots key =
          some { s with dirty := false, ttl := some L.volatileTTL } ∧
      (L.next key expectedRevision).1.order = L.order.filter (fun k => k ≠ key) ∧
      key ∉ (L.next key expectedRevision).1.order ∧
      (L.next key expectedRevision).1.volatileTTL = L.volatileTTL ∧
      (∀ k, k ≠ key → (L.next key expectedRevision).1.slots k = L.slots k)) ∧
    (∀ s, L.slots key = some s → s.entry.Rev ≠ expectedRevision →
      (L.next key expectedRevision).1 = L ∧ L.slots key = some s) ∧
    (L.slots key = none → (L.next key expectedRevision).1 = L) ∧
    (L.next key expectedRevision).2 = (L.next key expectedRevision).1.PeekFirst ∧
    ((L.next key expectedRevision).1.order = [] →
      (L.next key expectedRevision).2 = none) ∧
    (∀ k rest s, (L.next key expectedRevision).1.order = k :: rest →
      (L.next key expectedRevision).1.slots k = some s →
      (L.next key expectedRevision).2 = some (k, s.entry)) ∧
    (∀ k rest, (L.next key expectedRevision).1.order = k :: rest →
      (L.next key expectedRevision).1.slots k = none →
      (L.next key expectedRevision).2 = none) := by
  have hin : scriptInput key expectedRevision = ([key], [expectedRevision]) := by
    simp [scriptInput, hkey, hrev]
  have hnext : L.next key expectedRevision = L.Advance key expectedRevision := by
    simp [Ledger.next, hin, Ledger.runAdvance]
  rw [hnext]
  refine ⟨rfl, ?_, ?_, ?_, rfl, ?_, ?_, ?_⟩
  · intro s hs hr
    simp only [Ledger.Advance, Ledger.clear, hs, hr, if_true]
    refine ⟨by simp, trivial, by simp, trivial, ?_⟩
    intro k hk
    simp [hk]
  · intro s hs hr
    exact ⟨by simp [Ledger.Advance, Ledger.clear, hs, hr], hs⟩
  · intro hs
    simp [Ledger.Advance, Ledger.clear, hs]
  · intro h
    simp only [Ledger.Advance, Ledger.PeekFirst]
    simp only [Ledger.Advance] at h
    rw [h]
  · intro k rest s h hs
    simp only [Ledger.Advance, Ledger.PeekFirst]
    simp only [Ledger.Advance] at h hs
    rw [h]
    simp only [hs]
  · intro k rest h hs
    simp only [Ledger.Advance, Ledger.PeekFirst]
    simp only [Ledger.Advance] at h hs
    rw [h]
    simp only [hs]

/-- Witness for C3: on the example ledger, `next("db:coll:42", 2)` matches the
stored revision, leaves the dirty set `["db:coll:43", "db:coll:44"]` in its
order and hands back `"db:coll:43"`; the stale `next("db:coll:42", 1)` changes
nothing. -/
theorem C3_next_revision_gated_witness :
    ((exampleLedger.next "db:coll:42" 2).1.slots "db:coll:42" =
        some ⟨⟨2, "V2"⟩, false, some (24 * Hour)⟩ ∧
      (exampleLedger.next "db:coll:42" 2).1.order = ["db:coll:43", "db:coll:44"]) ∧
    (exampleLedger.next "db:coll:42" 1).1 = exampleLedger ∧
    (exampleLedger.next "db:coll:42" 2).2 = some ("db:coll:43", ⟨1, "W1"⟩) :=
  ⟨⟨((C3_next_revision_gated exampleLedger "db:coll:42" 2 (by decide) (by decide)).2.1
        ⟨⟨2, "V2"⟩, true, none⟩ rfl rfl).1,
      ((C3_next_revision_gated exampleLedger "db:coll:42" 2 (by decide) (by decide)).2.1
        ⟨⟨2, "V2"⟩, true, none⟩ rfl rfl).2.1⟩,
    ((C3_next_revision_gated exampleLedger "db:coll:42" 1 (by decide) (by decide)).2.2.1
        ⟨⟨2, "V2"⟩, true, none⟩ rfl (by decide)).1,
    (C3_next_revision_gated exampleLedger "db:coll:42" 2 (by decide) (by decide)).2.2.2.2.2.2.1
        "db:coll:43" ["db:coll:44"] ⟨⟨1, "W1"⟩, true, none⟩ (by decide) rfl⟩

/-- Counterexample to C4: with a sync rate of 5 and `Stop()` called during the
pacing wait of interaction 3, `Serve` peeks, saves `"db:coll:42"` successfully,
logs it, takes the stop case of the pacing `select` and returns: the run has
four events and no Advance. -/
theorem C4_counterexample :
    (exampleClient 5 (some 7) false).Serve 4 =
      ([Event.peek (Outcome.ret "db:coll:42" ⟨1, "V1"⟩ none),
        Event.save "db:coll:42" ⟨1, "V1"⟩ none, Event.debugf "db:coll:42",
        Event.pace SelectCase.done], Pc.returned) ∧
    ¬ (∀ (cli : SyncClient) (i n : Nat) (key : String) (data : xData),
        cli.eventAt i = some (Event.save key data none) → cli.pcAt n = Pc.returned →
        ∃ j out, i < j ∧ j < n ∧ cli.eventAt j = some (Event.next key data.Rev out)) := by
  refine ⟨by decide, ?_⟩
  intro h
  obtain ⟨j, out, h1, h2, h3⟩ :=
    h (exampleClient 5 (some 7) false) 1 4 "db:coll:42" ⟨1, "V1"⟩ (by decide) (by decide)
  have hj : j = 2 ∨ j = 3 := by omega
  rcases hj with rfl | rfl
  · have : (exampleClient 5 (some 7) false).eventAt 2 = some (Event.debugf "db:coll:42") := by
      decide
    rw [this] at h3
    cases h3
  · have : (exampleClient 5 (some 7) false).eventAt 3 = some (Event.pace SelectCase.done) := by
      decide
    rw [this] at h3
    cases h3

/-- Claim C4, amended: after every successful `save(key, data)`, `Serve` logs
the key and then, when no sync rate is configured, issues the Advance
`next(key, data.Rev)` at once, whether or not the stop signal has fired; when a
sync rate is configured it first waits in the pacing `select`, issues the
Advance if that wait ends with the tick, and returns without any Advance if
that wait ends with the stop signal. -/
theorem C4_advance_after_save (cli : SyncClient) (i : Nat) (key : String) (data : xData)
    (h : cli.eventAt i = some (Event.save key data none)) :
    cli.eventAt (i + 1) = some (Event.debugf key) ∧
    (¬ cli.opts.syncRate > 0 →
      cli.eventAt (i + 2) = some (Event.next key data.Rev (cli.next (i + 2) key data.Rev))) ∧
    (cli.opts.syncRate > 0 →
      cli.eventAt (i + 2) = some (Event.pace (cli.world.selectTick (i + 2))) ∧
      (cli.world.selectTick (i + 2) = SelectCase.fired →
        cli.eventAt (i + 3) = some (Event.next key data.Rev (cli.next (i + 3) key data.Rev))) ∧
      (cli.world.selectTick (i + 2) = SelectCase.done →
        ∀ j, i + 2 < j → cli.pcAt j = Pc.returned ∧ cli.eventAt j = none)) := by
  obtain ⟨hp, hs⟩ := eventAt_save h
  have hd := pcAt_after_save_ok hp hs.symm
  have h2 := pcAt_after_debugf hd
  refine ⟨eventAt_of_debugf hd, ?_, ?_⟩
  · intro hr
    rw [if_neg hr] at h2
    exact eventAt_of_next h2
  · intro hr
    rw [if_pos hr] at h2
    have h3 := pcAt_after_pace h2
    refine ⟨eventAt_of_pace h2, ?_, ?_⟩
    · intro hf
      rw [hf] at h3
      exact eventAt_of_next h3
    · intro hf j hj
      rw [hf] at h3
      have := pcAt_returned_stable h3 j (by omega)
      exact ⟨this, eventAt_of_returned this⟩

/-- Witness for C4: without a sync rate and with `Stop()` called between the
save and the Advance, the Advance of `"db:coll:42"` at revision 1 is still
issued as interaction 3 (and comes back with the cancellation error). -/
theorem C4_advance_after_save_witness :
    (exampleClient 0 (some 5) false).eventAt 3 =
      some (Event.next "db:coll:42" 1 (Outcome.ret "" ⟨0, ""⟩ (some Err.Canceled))) :=
  (C4_advance_after_save (exampleClient 0 (some 5) false) 1 "db:coll:42" ⟨1, "V1"⟩
    (by decide)).2.1 (by decide)

/-- Stop before `Serve`, once the ticker (if any) is created: `Serve` returns
after three interactions, the failed `peek`, the error log and the backoff
`select` that takes the stop case, and no interaction of the run is a `save`. -/
theorem stop_before_serve (cli : SyncClient) (h : cli.world.stopAt = some 0)
    (hstart : cli.pcAt 0 = Pc.peek) :
    cli.Serve 3 = ([Event.peek (Outcome.ret "" ⟨0, ""⟩ (some Err.Canceled)),
      Event.errorf Err.Canceled, Event.halt SelectCase.done], Pc.returned) ∧
    (∀ n, 3 ≤ n → cli.pcAt n = Pc.returned ∧ cli.eventAt n = none) ∧
    (∀ i key data err, cli.eventAt i ≠ some (Event.save key data err)) := by
  have hb : ∀ i, cli.world.stoppedBefore i = true := by
    intro i; simp [World.stoppedBefore, h]
  have hd : ∀ i, cli.world.stoppedDuring i = true := by
    intro i; simp [World.stoppedDuring, h]
  have hpeek : cli.peek 0 = Outcome.ret "" ⟨0, ""⟩ (some Err.Canceled) := by
    simp [SyncClient.peek, SyncClient.runScript, hb, Script.Run, unpack]
  have h1 : cli.pcAt 1 = Pc.errorf Err.Canceled := by
    rw [pcAt_after_peek hstart, hpeek]
    rfl
  have h2 : cli.pcAt 2 = Pc.halt := pcAt_after_errorf h1
  have hsel : cli.world.selectAfter 2 = SelectCase.done := by
    simp [World.selectAfter, hd]
  have h3 : cli.pcAt 3 = Pc.returned := by
    rw [pcAt_after_halt h2, hsel]
  have e0 : cli.eventAt 0 = some (Event.peek (Outcome.ret "" ⟨0, ""⟩ (some Err.Canceled))) := by
    rw [eventAt_of_peek hstart, hpeek]
  have e1 : cli.eventAt 1 = some (Event.errorf Err.Canceled) := eventAt_of_errorf h1
  have e2 : cli.eventAt 2 = some (Event.halt SelectCase.done) := by
    rw [eventAt_of_halt h2, hsel]
  have hlate : ∀ n, 3 ≤ n → cli.pcAt n = Pc.returned ∧ cli.eventAt n = none := by
    intro n hn
    have := pcAt_returned_stable h3 n hn
    exact ⟨this, eventAt_of_returned this⟩
  refine ⟨?_, hlate, ?_⟩
  · simp [SyncClient.Serve, List.range_succ, e0, e1, e2, h3]
  · intro i key data err hev
    by_cases hi : 3 ≤ i
    · rw [(hlate i hi).2] at hev
      cases hev
    · have : i = 0 ∨ i = 1 ∨ i = 2 := by omega
      rcases this with rfl | rfl | rfl
      · rw [e0] at hev; cases hev
      · rw [e1] at hev; cases hev
      · rw [e2] at hev; cases hev

/-- Stop before `Serve` with a sync rate of at most `time.Second`: `Serve`
returns after three interactions. -/
theorem stop_before_serve_returns (cli : SyncClient) (h : cli.world.stopAt = some 0)
    (hrate : cli.opts.syncRate ≤ 1000000000) :
    cli.Serve 3 = ([Event.peek (Outcome.ret "" ⟨0, ""⟩ (some Err.Canceled)),
      Event.errorf Err.Canceled, Event.halt SelectCase.done], Pc.returned) :=
  (stop_before_serve cli h (start_of_rate_le cli hrate)).1

/-- A sync rate above `time.Second` ends `Serve` in the panic of `time.NewTicker`
before any interaction. -/
theorem ticker_panic (cli : SyncClient) (hrate : 1000000000 < cli.opts.syncRate) (n : Nat) :
    cli.pcAt n = Pc.panicked ∧ cli.eventAt n = none :=
  ⟨pcAt_panicked_stable (start_of_rate_gt cli hrate) n (Nat.zero_le n),
    eventAt_of_panicked (pcAt_panicked_stable (start_of_rate_gt cli hrate) n (Nat.zero_le n))⟩

/-- Stop before `Serve`, whatever the sync rate: no interaction of the run is a
`save`. -/
theorem stop_before_serve_no_save (cli : SyncClient) (h : cli.world.stopAt = some 0) :
    ∀ i key data err, cli.eventAt i ≠ some (Event.save key data err) := by
  rcases pcAt_zero cli with h0 | h0
  · exact (stop_before_serve cli h h0).2.2
  · intro i key data err hev
    rw [eventAt_of_panicked (pcAt_panicked_stable h0 i (Nat.zero_le i))] at hev
    cases hev

/-- Claim C5, at the input where the code departs from it: with a sync rate of
2000000000 the period `time.Second / time.Duration(syncRate)` is 0, so
`time.NewTicker` panics before the first `peek`.  With `Stop()` called before
`Serve()` and a dirty ledger, the run has no event at all, a `save` included,
and `Serve` never returns: a panic has ended it. -/
theorem C5_ticker_panic_before_peek :
    (exampleClient 2000000000 (some 0) false).Serve 3 = ([], Pc.panicked) ∧
    (∀ n, (exampleClient 2000000000 (some 0) false).pcAt n = Pc.panicked ∧
      (exampleClient 2000000000 (some 0) false).pcAt n ≠ Pc.returned ∧
      (exampleClient 2000000000 (some 0) false).eventAt n = none) ∧
    (exampleClient 5 (some 0) false).Serve 3 =
      ([Event.peek (Outcome.ret "" ⟨0, ""⟩ (some Err.Canceled)),
        Event.errorf Err.Canceled, Event.halt SelectCase.done], Pc.returned) := by
  have h0 : (exampleClient 2000000000 (some 0) false).pcAt 0 = Pc.panicked := by decide
  refine ⟨by decide, ?_, by decide⟩
  intro n
  have hn := pcAt_panicked_stable h0 n (Nat.zero_le n)
  refine ⟨hn, ?_, eventAt_of_panicked hn⟩
  rw [hn]
  exact fun e => Pc.noConfusion e

/-- Claim C6: applying a list of options in order to `newOptions()` yields the
`volatileTTL` of the last `WithVolatileTTL` (24 hours if there is none) and the
strategy of the last `WithKeyMappingStrategy` / `WithKeyMappingStrategyFunc` (the
default mapping if there is none; for `WithKeyMappingStrategyFunc(f)`, `MapKey` is
`f`); an option of one kind leaves the field of the other kind unchanged. -/
theorem C6_applyOptions_last_wins (calls : List OptionCall) :
    (applyOptions newOptions (calls.map OptionCall.build)).volatileTTL =
        (lastVolatileTTL calls).getD (24 * 3600 * 1000000000) ∧
    (∀ key, (applyOptions newOptions (calls.map OptionCall.build)).keyMappingStrategy.MapKey key =
        match lastStrategy calls with
        | some s => s.MapKey key
        | none => defaultKeyMappingStrategy.MapKey key) ∧
    (∀ f key, (KeyMappingStrategy.funcStrategy f).MapKey key = f key) ∧
    (∀ v o, ((WithVolatileTTL v).apply o).keyMappingStrategy = o.keyMappingStrategy ∧
        ((WithVolatileTTL v).apply o).volatileTTL = v) ∧
    (∀ v o, ((WithKeyMappingStrategy v).apply o).volatileTTL = o.volatileTTL ∧
        ((WithKeyMappingStrategy v).apply o).keyMappingStrategy = v) ∧
    (∀ f o, ((WithKeyMappingStrategyFunc f).apply o).volatileTTL = o.volatileTTL ∧
        ((WithKeyMappingStrategyFunc f).apply o).keyMappingStrategy =
          KeyMappingStrategy.funcStrategy f) := by
  obtain ⟨h1, h2⟩ := applyOptions_build calls newOptions
  refine ⟨?_, ?_, fun _ _ => rfl, fun _ _ => ⟨rfl, rfl⟩, fun _ _ => ⟨rfl, rfl⟩,
    fun _ _ => ⟨rfl, rfl⟩⟩
  · rw [h1]
    have hnew : newOptions.volatileTTL = 24 * 3600 * 1000000000 := by decide
    rw [hnew]
  · intro key
    rw [h2]
    cases lastStrategy calls <;> rfl

/-- Counterexample to C7: for the key `"db:coll:42"` and the revision 0, and for
the empty key and the revision 7, `runScript` hands the script no key and no
argument. -/
theorem C7_counterexample :
    scriptInput "db:coll:42" 0 = ([], []) ∧ scriptInput "" 7 = ([], []) ∧
    ¬ (∀ (key : String) (rev : Int), -2 ^ 63 ≤ rev → rev < 2 ^ 63 →
        scriptInput key rev = ([key], [rev])) := by
  refine ⟨by decide, by decide, ?_⟩
  intro h
  exact absurd (h "db:coll:42" 0 (by decide) (by decide)) (by decide)

/-- Claim C7, amended: for every non-empty key and every revision `rev > 0`,
the Advance call `next(key, rev)` runs the ADVANCE script on exactly the key
list `[key]` and the argument list `[rev]`, and its result is the unpacked
reply of that run. -/
theorem C7_next_passes_key_and_revision (cli : SyncClient) (i : Nat) (key : String) (rev : Int)
    (hkey : key ≠ "") (hrev : rev > 0) :
    scriptInput key rev = ([key], [rev]) ∧
    cli.next i key rev = unpack cli.world.unmarshal
      (Script.Run (cli.world.stoppedBefore i) (cli.world.eval i Script.luaNext [key] [rev])) := by
  have h : scriptInput key rev = ([key], [rev]) := by
    simp [scriptInput, hkey, hrev]
  exact ⟨h, by simp [SyncClient.next, SyncClient.runScript, h]⟩

/-- Witness for C7: the key `"db:coll:42"` at revision 7. -/
theorem C7_next_passes_key_and_revision_witness :
    scriptInput "db:coll:42" 7 = (["db:coll:42"], [7]) :=
  (C7_next_passes_key_and_revision (exampleClient 0 none false) 0 "db:coll:42" 7
    (by decide) (by decide)).1

/-- Claim C8: an empty ledger is not an error.  When `peek` or an Advance returns
`redis.Nil`, the very next interaction is the one-second backoff wait: no error
is logged and no save or Advance is made in between.  When `peek`, `save` or an
Advance returns any other error, the next interaction logs exactly that error
and the one after it is the same backoff wait; an error is only ever logged this
way.  A backoff wait ends with the stop case exactly when the stop signal fired
before its end; if it ends with the timer, the next interaction is a new `peek`,
and if it ends with the stop case, `Serve` has returned. -/
theorem C8_empty_is_not_an_error (cli : SyncClient) :
    (∀ i e, cli.eventAt i = some e → e.ledgerError = some Err.Nil →
        cli.eventAt (i + 1) = some (Event.halt (cli.world.selectAfter (i + 1)))) ∧
    (∀ i e err, cli.eventAt i = some e → e.error = some err → err ≠ Err.Nil →
        cli.eventAt (i + 1) = some (Event.errorf err) ∧
        cli.eventAt (i + 2) = some (Event.halt (cli.world.selectAfter (i + 2)))) ∧
    (∀ i err, cli.eventAt i = some (Event.errorf err) →
        err ≠ Err.Nil ∧ ∃ j e, i = j + 1 ∧ cli.eventAt j = some e ∧ e.error = some err) ∧
    (∀ i c, cli.eventAt i = some (Event.halt c) →
        (c = SelectCase.done ↔ cli.world.stoppedDuring i = true) ∧
        (c = SelectCase.fired → cli.eventAt (i + 1) = some (Event.peek (cli.peek (i + 1)))) ∧
        (c = SelectCase.done → ∀ j, i < j → cli.pcAt j = Pc.returned ∧ cli.eventAt j = none)) := by
  refine ⟨?_, ?_, ?_, ?_⟩
  · intro i e h he
    have he' : e.error = some Err.Nil := by
      cases e <;> simp [Event.ledgerError] at he <;> simpa [Event.error] using he
    have hnext := pcAt_after_error h he'
    rw [show onError Err.Nil = Pc.halt from rfl] at hnext
    exact eventAt_of_halt hnext
  · intro i e err h he hne
    have hnext := pcAt_after_error h he
    rcases onError_cases err with ⟨e0, -⟩ | ⟨-, e1⟩
    · exact absurd e0 hne
    · rw [e1] at hnext
      exact ⟨eventAt_of_errorf hnext, eventAt_of_halt (pcAt_after_errorf hnext)⟩
  · intro i err h
    have hp := eventAt_errorf h
    cases i with
    | zero => rcases pcAt_zero cli with h0 | h0 <;> rw [h0] at hp <;> cases hp
    | succ j => exact pcAt_succ_errorf hp
  · intro i c h
    obtain ⟨hp, rfl⟩ := eventAt_halt h
    have hnext := pcAt_after_halt hp
    refine ⟨?_, ?_, ?_⟩
    · unfold World.selectAfter
      cases cli.world.stoppedDuring i <;> simp
    · intro hc
      rw [hc] at hnext
      exact eventAt_of_peek hnext
    · intro hc j hj
      rw [hc] at hnext
      have := pcAt_returned_stable hnext j (by omega)
      exact ⟨this, eventAt_of_returned this⟩


/-- Witness for C8: in the example world the Advance of interaction 3 returns
`redis.Nil` and interaction 4 is the backoff wait; with a failing upsert the
error of the save of interaction 1 is logged by interaction 2 and interaction 3
is the backoff wait. -/
theorem C8_empty_is_not_an_error_witness :
    (exampleClient 0 none false).eventAt 4 =
      some (Event.halt ((exampleClient 0 none false).world.selectAfter 4)) ∧
    (exampleClient 0 none true).eventAt 2 =
      some (Event.errorf (Err.other "mongo: unavailable")) ∧
    (exampleClient 0 none true).eventAt 3 =
      some (Event.halt ((exampleClient 0 none true).world.selectAfter 3)) :=
  ⟨(C8_empty_is_not_an_error (exampleClient 0 none false)).1 3
      (Event.next "db:coll:42" 1 (Outcome.ret "" ⟨0, ""⟩ (some Err.Nil))) (by decide) (by decide),
   (C8_empty_is_not_an_error (exampleClient 0 none true)).2.1 1
      (Event.save "db:coll:42" ⟨1, "V1"⟩ (some (Err.other "mongo: unavailable")))
      (Err.other "mongo: unavailable") (by decide) (by decide) (by decide)⟩

/-- Claim C9: `runScript` fails loudly on a protocol error.  When the script run
comes back without a driver error and its reply is not a list of exactly two
elements, `runScript` panics; and `runScript` returns `(key, entry, nil)` only
when the reply is a two-element list whose first element is the string `key` and
whose second element is a string that decodes, without error, to `entry`. -/
theorem C9_runScript_fails_loudly (cli : SyncClient) (i : Nat) (script : Script) (key : String)
    (rev : Int) :
    (∀ r, Script.Run (cli.world.stoppedBefore i)
          (cli.world.eval i script (scriptInput key rev).1 (scriptInput key rev).2) = Except.ok r →
        (∀ a0 a1, r ≠ Reply.list [a0, a1]) →
        cli.runScript i script key rev = Outcome.panic) ∧
    (∀ k data, cli.runScript i script key rev = Outcome.ret k data none →
        ∃ s, Script.Run (cli.world.stoppedBefore i)
            (cli.world.eval i script (scriptInput key rev).1 (scriptInput key rev).2) =
              Except.ok (Reply.list [Reply.str k, Reply.str s]) ∧
          cli.world.unmarshal s = (none, data)) := by
  constructor
  · intro r hr hshape
    unfold SyncClient.runScript
    rw [hr]
    exact unpack_panic _ r hshape
  · intro k data h
    exact unpack_ret _ _ k data h

/-- Witness for C9: a reply that is a list of one element makes `peek` panic. -/
theorem C9_runScript_fails_loudly_witness :
    (replyClient (Except.ok (Reply.list [Reply.str "db:coll:42"]))).runScript
      0 Script.luaPeek "" 0 = Outcome.panic :=
  (C9_runScript_fails_loudly (replyClient (Except.ok (Reply.list [Reply.str "db:coll:42"])))
      0 Script.luaPeek "" 0).1
    (Reply.list [Reply.str "db:coll:42"]) rfl (by intro a0 a1 h; cases h)

/-- Claim C10: the default mapping is not injective (`"42"`, `"default:42"` and
`"default:default:42"` share the image `("default", "default", "42")`), and it is
injective on the keys that contain at least two `":"`. -/
theorem C10_MapKey_injectivity :
    (∃ k1 k2 : String, k1 ≠ k2 ∧
      defaultKeyMappingStrategy.MapKey k1 = defaultKeyMappingStrategy.MapKey k2) ∧
    defaultKeyMappingStrategy.MapKey "42" = ("default", "default", "42") ∧
    defaultKeyMappingStrategy.MapKey "default:42" = ("default", "default", "42") ∧
    defaultKeyMappingStrategy.MapKey "default:default:42" = ("default", "default", "42") ∧
    (∀ k1 k2 : String, 2 ≤ k1.data.count ':' → 2 ≤ k2.data.count ':' →
      defaultKeyMappingStrategy.MapKey k1 = defaultKeyMappingStrategy.MapKey k2 → k1 = k2) := by
  refine ⟨⟨"42", "default:42", by decide, by decide⟩, by decide, by decide, by decide, ?_⟩
  intro k1 k2 h1 h2 he
  obtain ⟨a1, b1, c1, e1, ha1, hb1⟩ := exists_two_split k1 h1
  obtain ⟨a2, b2, c2, e2, ha2, hb2⟩ := exists_two_split k2 h2
  rw [e1, e2, MapKey_two a1 b1 c1 ha1 hb1, MapKey_two a2 b2 c2 ha2 hb2] at he
  simp only [Prod.mk.injEq] at he
  rw [e1, e2, he.1, he.2.1, he.2.2]

/-- Witness for C10: two distinct keys with two `":"` each have distinct images. -/
theorem C10_MapKey_injectivity_witness :
    defaultKeyMappingStrategy.MapKey "a:b:c" ≠ defaultKeyMappingStrategy.MapKey "a:b:d" :=
  fun he => absurd (C10_MapKey_injectivity.2.2.2.2 "a:b:c" "a:b:d"
    (by decide) (by decide) he) (by decide)

end remon
